import Mathlib

/-!
Verification of the composition-mesh generator and calculation orchestrator of
`phase_diagram_calculator.py`.

The mesh generator is embedded over exact rationals: a numpy matrix of shape
(k, n) becomes a function `ℕ → ℕ → ℚ` (row index, column index), built by the
same sequence of element-wise writes the Python code performs.  The
orchestrator is embedded as a trace-producing function: the external
thermodynamics engine is abstracted as an oracle giving, for each processed
grid point, one of three outcomes (success, the recognized unrecoverable
calculation failure, or any other fatal exception), and the run produces the
list of observable events (session open/close, file save, skip log) together
with a flag telling whether the run completed or aborted with a propagating
exception.
-/

namespace PhaseDiagram

/-- A single element-wise write `v[idx] = x` into a vector represented as a
total function from row index to value (`np.zeros` initialised rows read 0). -/
def setIdx (v : ℕ → ℚ) (idx : ℕ) (x : ℚ) : ℕ → ℚ :=
  fun j => if j = idx then x else v j

/-- Value of `np.linspace(0, 1 - 3*c, n)` at position `i`: for `n ≥ 2` the value
`(1 - 3*c) * i / (n - 1)`; `np.linspace` with a single sample returns the
start point `0`. -/
def mole_fractions (c : ℚ) (n : ℕ) (i : ℕ) : ℚ :=
  if n ≤ 1 then 0 else (1 - 3 * c) * i / ((n : ℚ) - 1)

/-- Column `i` of the mesh: starting from the zero column, the loop body of
`mesh_concentrations` writes the constant concentration `c` at each constant
index in list order, then writes `mole_fractions[i]` at the first changing
index, then `1 - mole_fractions[i] - 3*c` at the second changing index. -/
def mesh_column (chg const : List ℕ) (c : ℚ) (n i : ℕ) : ℕ → ℚ :=
  let withConst := const.foldl (fun v idx => setIdx v idx c) (fun _ => 0)
  let withFirst := setIdx withConst (chg.getD 0 0) (mole_fractions c n i)
  setIdx withFirst (chg.getD 1 0) (1 - mole_fractions c n i - 3 * c)

/-- The source's `mesh_concentrations(element_list, n, chg, const, c)`,
returned as the function sending row index and column index to the mole
fraction stored there; the matrix has shape `(element_list.length, n)`. -/
def mesh_concentrations (element_list : List String) (n : ℕ)
    (chg const : List ℕ) (c : ℚ) : ℕ → ℕ → ℚ :=
  fun row i => mesh_column chg const c n i row

/-- Reading any row after the fold writing the constant concentration at every
constant index: rows listed in `const` hold `c`, other rows are untouched. -/
lemma foldl_setIdx (c : ℚ) (const : List ℕ) (v : ℕ → ℚ) (j : ℕ) :
    (const.foldl (fun w idx => setIdx w idx c) v) j = if j ∈ const then c else v j := by
  induction const generalizing v with
  | nil => simp
  | cons h t ih =>
    simp only [List.foldl_cons, ih, setIdx, List.mem_cons]
    by_cases hjh : j = h <;> by_cases hjt : j ∈ t <;> simp [hjh, hjt]

/-- Closed form of one mesh column: since the write at the second changing
index comes last and the write at the first changing index comes after all
constant-index writes, the column reads as a three-level conditional. -/
lemma mesh_column_eq (a b : ℕ) (const : List ℕ) (c : ℚ) (n i j : ℕ) :
    mesh_column [a, b] const c n i j
      = if j = b then 1 - mole_fractions c n i - 3 * c
        else if j = a then mole_fractions c n i
        else if j ∈ const then c else 0 := by
  simp only [mesh_column, List.getD_cons_zero, List.getD_cons_succ, setIdx, foldl_setIdx]

/-- Column sum of the mesh with changing indices `a ≠ b`, and constant indices
without duplicates, all in range and avoiding `a` and `b`: the two changing
rows contribute `1 - 3*c` and each constant row contributes `c`. -/
lemma sum_mesh_column (k n i a b : ℕ) (const : List ℕ) (c : ℚ)
    (hab : a ≠ b) (ha : a < k) (hb : b < k)
    (hk : ∀ x ∈ const, x < k) (hnd : const.Nodup)
    (hca : a ∉ const) (hcb : b ∉ const) :
    ∑ j ∈ Finset.range k, mesh_column [a, b] const c n i j
      = 1 - 3 * c + c * const.length := by
  have hpt : ∀ j, mesh_column [a, b] const c n i j
      = (if j = b then 1 - mole_fractions c n i - 3 * c else 0)
        + (if j = a then mole_fractions c n i else 0)
        + (if j ∈ const.toFinset then c else 0) := by
    intro j
    rw [mesh_column_eq]
    by_cases hjb : j = b
    · subst hjb
      simp [Ne.symm hab, hcb]
    · by_cases hja : j = a
      · subst hja
        simp [hjb, hca]
      · simp [hjb, hja]
  rw [Finset.sum_congr rfl (fun j _ => hpt j), Finset.sum_add_distrib,
    Finset.sum_add_distrib, Finset.sum_ite_eq' (Finset.range k) b,
    Finset.sum_ite_eq' (Finset.range k) a, Finset.sum_ite_mem]
  have hsub : Finset.range k ∩ const.toFinset = const.toFinset := by
    refine Finset.inter_eq_right.mpr ?_
    intro x hx
    exact Finset.mem_range.mpr (hk x (List.mem_toFinset.mp hx))
  rw [hsub, Finset.sum_const, List.toFinset_card_of_nodup hnd]
  simp only [Finset.mem_range.mpr ha, Finset.mem_range.mpr hb, if_pos]
  ring

/-- C1 (as stated, counterexample): the claim quantifies over arbitrary
disjoint in-range index lists, but the code always reserves exactly `3 * c`
for the constant elements.  With four distinct in-range constant indices and
`c = 1/10` the first column sums to `11/10`, not `1`. -/
theorem mesh_column_sum_counterexample :
    ∑ j ∈ Finset.range 6,
        mesh_concentrations ["Al", "Cr", "Co", "Fe", "Ni", "Cu"] 2
          [0, 1] [2, 3, 4, 5] (1/10) j 0 ≠ 1 := by
  rw [show (6 : ℕ) = 5 + 1 from rfl, Finset.sum_range_succ, Finset.sum_range_succ,
    Finset.sum_range_succ, Finset.sum_range_succ, Finset.sum_range_succ,
    Finset.sum_range_succ]
  norm_num [mesh_concentrations, mesh_column, setIdx, mole_fractions]

/-- C1 (amended): for every element list, every `n ≥ 1`, every constant
concentration `c`, two distinct in-range changing indices, and a list of
exactly three distinct in-range constant indices disjoint from the changing
ones, every column of the mesh sums exactly to `1`. -/
theorem mesh_column_sums_to_one (elts : List String) (n i a b : ℕ)
    (const : List ℕ) (c : ℚ)
    (hab : a ≠ b) (ha : a < elts.length) (hb : b < elts.length)
    (hk : ∀ x ∈ const, x < elts.length) (hnd : const.Nodup)
    (hca : a ∉ const) (hcb : b ∉ const) (hlen : const.length = 3)
    (hn : 1 ≤ n) (hi : i < n) :
    ∑ j ∈ Finset.range elts.length,
        mesh_concentrations elts n [a, b] const c j i = 1 := by
  simp only [mesh_concentrations]
  rw [sum_mesh_column elts.length n i a b const c hab ha hb hk hnd hca hcb, hlen]
  ring

/-- C1 witness: the standard five-element configuration with `c = 1/10`,
`n = 15`, column `3`. -/
theorem mesh_column_sums_to_one_witness :
    ∑ j ∈ Finset.range 5,
        mesh_concentrations ["Al", "Cr", "Co", "Fe", "Ni"] 15
          [0, 1] [2, 3, 4] (1/10) j 3 = 1 :=
  mesh_column_sums_to_one ["Al", "Cr", "Co", "Fe", "Ni"] 15 3 0 1 [2, 3, 4] (1/10)
    (by decide) (by decide) (by decide) (by decide) (by decide)
    (by decide) (by decide) (by decide) (by decide) (by decide)

/-- C2: with distinct changing indices `a, b` and `n > 1`, row `a` of the mesh
is the linear sweep `i * (1 - 3*c) / (n - 1)` over `[0, 1 - 3*c]`, and row `b`
at column `i` is `1` minus row `a`'s value minus `3*c`. -/
theorem mesh_changing_rows (elts : List String) (const : List ℕ) (c : ℚ)
    (n a b i : ℕ) (hab : a ≠ b) (hn : 1 < n) (hi : i < n) :
    mesh_concentrations elts n [a, b] const c a i
        = i * (1 - 3 * c) / ((n : ℚ) - 1)
      ∧ mesh_concentrations elts n [a, b] const c b i
        = 1 - i * (1 - 3 * c) / ((n : ℚ) - 1) - 3 * c := by
  have hm : mole_fractions c n i = i * (1 - 3 * c) / ((n : ℚ) - 1) := by
    unfold mole_fractions
    rw [if_neg (by omega)]
    ring
  constructor
  · simp only [mesh_concentrations]
    rw [mesh_column_eq, if_neg hab, if_pos rfl, hm]
  · simp only [mesh_concentrations]
    rw [mesh_column_eq, if_pos rfl, hm]

/-- C2 witness: the standard configuration at column `3` of a 15-column mesh
with `c = 1/10`: the sweep value is `3/20` and the complementary value is
`1 - 3/20 - 3/10 = 11/20`. -/
theorem mesh_changing_rows_witness :
    mesh_concentrations ["Al", "Cr", "Co", "Fe", "Ni"] 15
        [0, 1] [2, 3, 4] (1/10) 0 3 = 3/20
      ∧ mesh_concentrations ["Al", "Cr", "Co", "Fe", "Ni"] 15
        [0, 1] [2, 3, 4] (1/10) 1 3 = 11/20 := by
  have h := mesh_changing_rows ["Al", "Cr", "Co", "Fe", "Ni"] [2, 3, 4] (1/10)
    15 0 1 3 (by decide) (by decide) (by decide)
  refine ⟨?_, ?_⟩
  · rw [h.1]; norm_num
  · rw [h.2]; norm_num

/-- C6: for `c = 1/10`, `n = 15`, changing indices `[0, 1]` and constant
indices `[2, 3, 4]`, the first column holds `0` and `7/10 = 1 - 3*(1/10)` in
the changing rows, and the last column (`i = 14`) holds `7/10` and `0`. -/
theorem mesh_endpoint_values :
    mesh_concentrations ["Al", "Cr", "Co", "Fe", "Ni"] 15 [0, 1] [2, 3, 4] (1/10) 0 0 = 0
      ∧ mesh_concentrations ["Al", "Cr", "Co", "Fe", "Ni"] 15 [0, 1] [2, 3, 4] (1/10) 1 0 = 7/10
      ∧ mesh_concentrations ["Al", "Cr", "Co", "Fe", "Ni"] 15 [0, 1] [2, 3, 4] (1/10) 0 14 = 7/10
      ∧ mesh_concentrations ["Al", "Cr", "Co", "Fe", "Ni"] 15 [0, 1] [2, 3, 4] (1/10) 1 14 = 0 := by
  refine ⟨?_, ?_, ?_, ?_⟩ <;>
    norm_num [mesh_concentrations, mesh_column, setIdx, mole_fractions]

/-- C7: no bounds validation is performed: with the constant concentration
`1/2 > 1/3`, the mesh for `n = 2` holds the negative entry `-(1/2)` at row
`0`, column `1`; the value is returned as is, neither clamped nor rejected. -/
theorem mesh_negative_entry :
    (1/3 : ℚ) < 1/2
      ∧ mesh_concentrations ["Al", "Cr", "Co", "Fe", "Ni"] 2 [0, 1] [2, 3, 4] (1/2) 0 1 = -(1/2)
      ∧ mesh_concentrations ["Al", "Cr", "Co", "Fe", "Ni"] 2 [0, 1] [2, 3, 4] (1/2) 0 1 < 0 := by
  refine ⟨by norm_num, ?_, ?_⟩ <;>
    norm_num [mesh_concentrations, mesh_column, setIdx, mole_fractions]

/-- C10: the allocation reserved for the constant elements is the fixed amount
`3 * c` whatever the number of supplied constant indices: with distinct
in-range indices each column sums to `1 + (const.length - 3) * c`, and every
row whose index appears in neither index list stays `0` in every column. -/
theorem mesh_column_sum_general (elts : List String) (n i a b : ℕ)
    (const : List ℕ) (c : ℚ)
    (hab : a ≠ b) (ha : a < elts.length) (hb : b < elts.length)
    (hk : ∀ x ∈ const, x < elts.length) (hnd : const.Nodup)
    (hca : a ∉ const) (hcb : b ∉ const) (hi : i < n) :
    (∑ j ∈ Finset.range elts.length,
        mesh_concentrations elts n [a, b] const c j i
          = 1 + ((const.length : ℚ) - 3) * c)
      ∧ ∀ j, j ≠ a → j ≠ b → j ∉ const →
          mesh_concentrations elts n [a, b] const c j i = 0 := by
  constructor
  · simp only [mesh_concentrations]
    rw [sum_mesh_column elts.length n i a b const c hab ha hb hk hnd hca hcb]
    ring
  · intro j hja hjb hjc
    simp only [mesh_concentrations]
    rw [mesh_column_eq, if_neg hjb, if_neg hja, if_neg hjc]

/-- C10 witness: seven elements, four constant indices, `c = 1/10`: the column
sums to `11/10` and the untouched row `6` is `0`. -/
theorem mesh_column_sum_general_witness :
    (∑ j ∈ Finset.range 7,
        mesh_concentrations ["Al", "Cr", "Co", "Fe", "Ni", "Cu", "Zn"] 2
          [0, 1] [2, 3, 4, 5] (1/10) j 1 = 11/10)
      ∧ mesh_concentrations ["Al", "Cr", "Co", "Fe", "Ni", "Cu", "Zn"] 2
          [0, 1] [2, 3, 4, 5] (1/10) 6 1 = 0 := by
  have h := mesh_column_sum_general ["Al", "Cr", "Co", "Fe", "Ni", "Cu", "Zn"] 2 1
    0 1 [2, 3, 4, 5] (1/10) (by decide) (by decide) (by decide) (by decide)
    (by decide) (by decide) (by decide) (by decide)
  refine ⟨?_, h.2 6 (by decide) (by decide) (by decide)⟩
  have h1 : ∑ j ∈ Finset.range 7,
      mesh_concentrations ["Al", "Cr", "Co", "Fe", "Ni", "Cu", "Zn"] 2
        [0, 1] [2, 3, 4, 5] (1/10) j 1 = 1 + (((4 : ℕ) : ℚ) - 3) * (1/10) := h.1
  rw [h1]
  norm_num

/-! ## Orchestrator

`run_phase_diagram_calculations` iterates the mesh and drives the external
Thermo-Calc engine.  The engine interaction (database selection, axis
definitions, conditions, `calculate`) is abstracted into an oracle assigning
to each processed point — identified by the running counter the code keeps —
one of three outcomes: a successful grouped result, the recognized
`UnrecoverableCalculationException`, or any other exception.  The run is
embedded as a function producing the list of observable events together with
`true` when the run completed normally and `false` when an unhandled exception
propagated out of it. -/

/-- Outcome of one engine calculation: success, the single recognized
`UnrecoverableCalculationException`, or any other (fatal) exception. -/
inductive EngineOutcome where
  | success : EngineOutcome
  | unrecoverable : EngineOutcome
  | fatal : EngineOutcome
deriving DecidableEq

/-- The data interpolated into the saved file's name,
`f"Al{Al_x}-Cr{Cr_x}-Co{Co_x}-Fe{Fe_x}-Ni{Ni_x}.pkl"`: the name is the image
of exactly these five mole fractions, so it is modelled by the tuple of
values the f-string renders. -/
structure FileName where
  al : ℚ
  cr : ℚ
  co : ℚ
  fe : ℚ
  ni : ℚ
deriving DecidableEq

/-- Observable events of a run: `TCPython()` session acquisition and release,
saving a result file (into a directory, under a name), and the
skip-and-continue log message of the `except` handler. -/
inductive Event where
  | openSession : Event
  | closeSession : Event
  | saved : String → FileName → Event
  | logSkip : Event
deriving DecidableEq

/-- Rounding to three decimal places.  Modelled from the spec: the spec's
"rounded mole fractions" in file names; `round` rounds halves up where
Python's `round` rounds halves to even, and the two agree away from exact
half-thousandths.  The code itself applies `round(·, 3)` only to the derived
axis maximum, never to the file name. -/
def round3 (q : ℚ) : ℚ := (round (q * 1000) : ℚ) / 1000

/-- The grid points the orchestrator iterates: for each constant-concentration
value `j` (outer loop), the interior column indices
`range(1, input_concentrations.shape[1] - 1)`, i.e. `1, …, n - 2`. -/
def grid_points (cs : List ℚ) (n : ℕ) : List (ℚ × ℕ) :=
  cs.flatMap fun j => (List.range' 1 (n - 2)).map fun i => (j, i)

/-- One run of the loop body of `run_phase_diagram_calculations` from counter
value `cnt` over the remaining grid points.  For each point the session is
opened; on success the grouped result is saved under the name interpolating
the five raw mole fractions of rows `0`–`4` of the mesh and the session is
released; on `UnrecoverableCalculationException` the session is released and
the handler logs and continues; on any other exception the session is
released (the `with` block guarantees it) and the exception propagates,
aborting the run (`false`). -/
def run_from (oracle : ℕ → EngineOutcome) (output_dir : String)
    (element_list : List String) (chg const : List ℕ) (n : ℕ) :
    ℕ → List (ℚ × ℕ) → List Event × Bool
  | _, [] => ([], true)
  | cnt, (j, i) :: ps =>
    let m := mesh_concentrations element_list n chg const j
    match oracle cnt with
    | EngineOutcome.fatal => ([Event.openSession, Event.closeSession], false)
    | EngineOutcome.unrecoverable =>
      let r := run_from oracle output_dir element_list chg const n (cnt + 1) ps
      (Event.openSession :: Event.closeSession :: Event.logSkip :: r.1, r.2)
    | EngineOutcome.success =>
      let r := run_from oracle output_dir element_list chg const n (cnt + 1) ps
      (Event.openSession
        :: Event.saved output_dir
            { al := m 0 i, cr := m 1 i, co := m 2 i, fe := m 3 i, ni := m 4 i }
        :: Event.closeSession :: r.1, r.2)

/-- The source's `run_phase_diagram_calculations(element_list,
constant_C_of_others, n, chg, const, …, output_dir)`: the counter starts at
`0` and is incremented before each point, so the first processed point
carries counter value `1`. -/
def run_phase_diagram_calculations (oracle : ℕ → EngineOutcome)
    (element_list : List String) (constant_C_of_others : List ℚ) (n : ℕ)
    (chg const : List ℕ) (output_dir : String) : List Event × Bool :=
  run_from oracle output_dir element_list chg const n 1
    (grid_points constant_C_of_others n)

/-- Session acquisition/release events. -/
def is_session_event : Event → Bool
  | Event.openSession => true
  | Event.closeSession => true
  | _ => false

/-- Number of grid points actually processed from counter `cnt` on: all of
them when no outcome is fatal; up to and including the first fatal one
otherwise. -/
def processed_count (oracle : ℕ → EngineOutcome) : ℕ → List (ℚ × ℕ) → ℕ
  | _, [] => 0
  | cnt, _ :: ps =>
    match oracle cnt with
    | EngineOutcome.fatal => 1
    | _ => processed_count oracle (cnt + 1) ps + 1

/-- C3: for each constant-concentration value a grid point is built exactly
for the interior column indices `1, …, n - 2`, and the endpoint indices `0`
and `n - 1` never occur among the processed points. -/
theorem grid_points_interior (cs : List ℚ) (n : ℕ) :
    (∀ j i, (j, i) ∈ grid_points cs n ↔ j ∈ cs ∧ 1 ≤ i ∧ i ≤ n - 2)
      ∧ ∀ j, (j, 0) ∉ grid_points cs n ∧ (j, n - 1) ∉ grid_points cs n := by
  have hmain : ∀ j i, (j, i) ∈ grid_points cs n ↔ j ∈ cs ∧ 1 ≤ i ∧ i ≤ n - 2 := by
    intro j i
    simp only [grid_points, List.mem_flatMap, List.mem_map, List.mem_range'_1,
      Prod.mk.injEq]
    constructor
    · rintro ⟨a, ha, x, ⟨hx1, hx2⟩, haj, hxi⟩
      subst haj
      subst hxi
      exact ⟨ha, hx1, by omega⟩
    · rintro ⟨hj, h1, h2⟩
      exact ⟨j, hj, i, ⟨h1, by omega⟩, rfl, rfl⟩
  refine ⟨hmain, fun j => ⟨fun h => ?_, fun h => ?_⟩⟩
  · have := (hmain j 0).mp h
    omega
  · have := (hmain j (n - 1)).mp h
    omega

/-- C4: if the engine signals the unrecoverable failure at a grid point, the
run logs the skip, saves nothing for that point, and continues with all the
remaining points exactly as it would have from there; any other exception
makes the run stop at that point with `false` (the exception propagates out),
the already-opened session still being released. -/
theorem run_skip_and_continue (oracle : ℕ → EngineOutcome) (dir : String)
    (elts : List String) (chg const : List ℕ) (n cnt : ℕ) (j : ℚ) (i : ℕ)
    (ps : List (ℚ × ℕ)) :
    (oracle cnt = EngineOutcome.unrecoverable →
      run_from oracle dir elts chg const n cnt ((j, i) :: ps)
        = (Event.openSession :: Event.closeSession :: Event.logSkip ::
            (run_from oracle dir elts chg const n (cnt + 1) ps).1,
           (run_from oracle dir elts chg const n (cnt + 1) ps).2)
        ∧ ∀ d f, Event.saved d f
            ∉ [Event.openSession, Event.closeSession, Event.logSkip])
      ∧ (oracle cnt = EngineOutcome.fatal →
        run_from oracle dir elts chg const n cnt ((j, i) :: ps)
          = ([Event.openSession, Event.closeSession], false)) := by
  constructor
  · intro h
    refine ⟨?_, by simp⟩
    simp [run_from, h]
  · intro h
    simp [run_from, h]

/-- C4 witness: a run whose first point fails unrecoverably still processes
the second point, and a run whose first point raises any other exception
aborts at once. -/
theorem run_skip_and_continue_witness :
    (run_from (fun t => if t = 1 then EngineOutcome.unrecoverable else EngineOutcome.success)
        "results" ["Al", "Cr", "Co", "Fe", "Ni"] [0, 1] [2, 3, 4] 15 1
        [((1:ℚ)/10, 1), ((1:ℚ)/10, 2)]
      = (Event.openSession :: Event.closeSession :: Event.logSkip ::
          [Event.openSession,
           Event.saved "results"
             { al := 1/10, cr := 3/5, co := 1/10, fe := 1/10, ni := 1/10 },
           Event.closeSession], true))
      ∧ run_from (fun _ => EngineOutcome.fatal)
          "results" ["Al", "Cr", "Co", "Fe", "Ni"] [0, 1] [2, 3, 4] 15 1
          [((1:ℚ)/10, 1)]
        = ([Event.openSession, Event.closeSession], false) := by
  constructor
  · have h := ((run_skip_and_continue
      (fun t => if t = 1 then EngineOutcome.unrecoverable else EngineOutcome.success)
      "results" ["Al", "Cr", "Co", "Fe", "Ni"] [0, 1] [2, 3, 4] 15 1 (1/10) 1
      [((1:ℚ)/10, 2)]).1 (by simp)).1
    rw [h]
    simp only [run_from]
    norm_num [mesh_concentrations, mesh_column, setIdx, mole_fractions]
  · exact (run_skip_and_continue (fun _ => EngineOutcome.fatal)
      "results" ["Al", "Cr", "Co", "Fe", "Ni"] [0, 1] [2, 3, 4] 15 1 (1/10) 1
      []).2 rfl

/-- C5 (amended): every successfully calculated grid point is saved in the
output directory under the name deterministically interpolating the five raw
mole fractions of that point. -/
theorem run_saves_encoded_filename (oracle : ℕ → EngineOutcome) (dir : String)
    (elts : List String) (chg const : List ℕ) (n cnt : ℕ) (j : ℚ) (i : ℕ)
    (ps : List (ℚ × ℕ)) (h : oracle cnt = EngineOutcome.success) :
    Event.saved dir
        { al := mesh_concentrations elts n chg const j 0 i
          cr := mesh_concentrations elts n chg const j 1 i
          co := mesh_concentrations elts n chg const j 2 i
          fe := mesh_concentrations elts n chg const j 3 i
          ni := mesh_concentrations elts n chg const j 4 i }
      ∈ (run_from oracle dir elts chg const n cnt ((j, i) :: ps)).1 := by
  simp [run_from, h]

/-- C5 witness: with every calculation succeeding, the single interior point
of a 3-column mesh for `c = 3/40` is saved under the name carrying its five
fractions. -/
theorem run_saves_encoded_filename_witness :
    Event.saved "results"
        { al := mesh_concentrations ["Al", "Cr", "Co", "Fe", "Ni"] 3 [0, 1] [2, 3, 4] (3/40) 0 1
          cr := mesh_concentrations ["Al", "Cr", "Co", "Fe", "Ni"] 3 [0, 1] [2, 3, 4] (3/40) 1 1
          co := mesh_concentrations ["Al", "Cr", "Co", "Fe", "Ni"] 3 [0, 1] [2, 3, 4] (3/40) 2 1
          fe := mesh_concentrations ["Al", "Cr", "Co", "Fe", "Ni"] 3 [0, 1] [2, 3, 4] (3/40) 3 1
          ni := mesh_concentrations ["Al", "Cr", "Co", "Fe", "Ni"] 3 [0, 1] [2, 3, 4] (3/40) 4 1 }
      ∈ (run_from (fun _ => EngineOutcome.success) "results"
          ["Al", "Cr", "Co", "Fe", "Ni"] [0, 1] [2, 3, 4] 3 1 [((3:ℚ)/40, 1)]).1 :=
  run_saves_encoded_filename (fun _ => EngineOutcome.success) "results"
    ["Al", "Cr", "Co", "Fe", "Ni"] [0, 1] [2, 3, 4] 3 1 (3/40) 1 [] rfl

/-- C5 (as stated, counterexample): the fractions in the file name are the raw
mesh values, not rounded ones: the full run for `c = 3/40`, `n = 3` saves its
point under the name carrying `31/80`, and `31/80` is not equal to its
rounding to three decimal places (`97/250`). -/
theorem filename_uses_raw_fractions :
    (Event.saved "results"
          { al := 31/80, cr := 31/80, co := 3/40, fe := 3/40, ni := 3/40 }
        ∈ (run_phase_diagram_calculations (fun _ => EngineOutcome.success)
            ["Al", "Cr", "Co", "Fe", "Ni"] [3/40] 3 [0, 1] [2, 3, 4] "results").1)
      ∧ round3 (31/80) ≠ (31/80 : ℚ) := by
  constructor
  · have hg : grid_points [3/40] 3 = [((3:ℚ)/40, 1)] := by
      simp [grid_points, List.range']
    rw [run_phase_diagram_calculations, hg]
    simp only [run_from]
    norm_num [List.mem_cons, mesh_concentrations, mesh_column, setIdx,
      mole_fractions]
  · rw [round3]
    norm_num [round_eq]

/-- C8: the session events of any run are exactly one open–close pair per
processed grid point, in order: each point opens one session and releases it
before the next point is touched, the unrecoverably-failing and the fatally
failing point included. -/
theorem run_session_discipline (oracle : ℕ → EngineOutcome) (dir : String)
    (elts : List String) (chg const : List ℕ) (n : ℕ) (cnt : ℕ)
    (ps : List (ℚ × ℕ)) :
    ((run_from oracle dir elts chg const n cnt ps).1.filter is_session_event)
      = (List.replicate (processed_count oracle cnt ps)
          [Event.openSession, Event.closeSession]).flatten := by
  induction ps generalizing cnt with
  | nil => simp [run_from, processed_count]
  | cons p ps ih =>
    obtain ⟨j, i⟩ := p
    cases h : oracle cnt <;>
      simp [run_from, processed_count, h, List.replicate_succ, is_session_event, ih]

/-! ## Serialization

`save_groups` opens the file for (truncating) binary write and pickles the
groups into it; `load_groups` opens it for binary read and unpickles.  The
filesystem is embedded as a map from file name to stored blob, and the
`pickle` module — an external library, not code of this repository — is
abstracted as a codec `enc`/`dec` assumed to satisfy its documented
round-trip contract. -/

/-- The source's `save_groups(groups, filename)`: write the pickled groups to
`filename`, replacing any previous content. -/
def save_groups {G B : Type} (enc : G → B) (groups : G) (filename : String)
    (fs : String → Option B) : String → Option B :=
  fun f => if f = filename then some (enc groups) else fs f

/-- The source's `load_groups(filename)`: read the stored blob — `none` when
the file does not exist — and unpickle it. -/
def load_groups {G B : Type} (dec : B → Option G) (filename : String)
    (fs : String → Option B) : Option G :=
  (fs filename).bind dec

/-- C9: for every groups value and every file name, saving and then loading
from the same name returns exactly the saved value, on any starting
filesystem, whenever the pickle codec satisfies its round-trip contract. -/
theorem save_load_roundtrip {G B : Type} (enc : G → B) (dec : B → Option G)
    (hcodec : ∀ g, dec (enc g) = some g) (groups : G) (filename : String)
    (fs : String → Option B) :
    load_groups dec filename (save_groups enc groups filename fs)
      = some groups := by
  simp [load_groups, save_groups, hcodec]

/-- C9 witness: a concrete codec (the identity), a concrete value and an
empty filesystem. -/
theorem save_load_roundtrip_witness :
    load_groups (fun b => some b) "groups.pkl"
        (save_groups (fun g : ℕ => g) 42 "groups.pkl" (fun _ => none))
      = some 42 :=
  save_load_roundtrip (fun g : ℕ => g) (fun b => some b) (fun _ => rfl) 42
    "groups.pkl" (fun _ => none)

end PhaseDiagram
